import Mathlib

/-!
Verification of the artifact-resolution and flashing engine of `arcompile.py`
(remote build-and-flash orchestrator for ESP32/AVR boards).

The Python source is shallowly embedded: filenames, build output and FQBN
identifiers are Lean `String`s, file contents are `List Nat` (byte lists),
and every Python string primitive used by the source (`in`, `endswith`,
`split`, `splitlines`, `strip`, `replace`, `lower`, `int`, `removesuffix`,
`Path.suffix`) is re-implemented structurally over `List Char` so that all
definitions compute by kernel reduction.
-/

deriving instance DecidableEq for Except

namespace Arcompile

/-! ## Python string primitives -/

/-- Predicate `startsList sub s` : `sub` occurs at the beginning of `s`
(Python `s.startswith(sub)` on char lists). -/
def startsList : List Char → List Char → Bool
  | [], _ => true
  | _ :: _, [] => false
  | a :: as, b :: bs => a = b && startsList as bs

/-- Predicate `containsList sub s` : `sub` occurs somewhere in `s` (Python `sub in s`). -/
def containsList (sub : List Char) : List Char → Bool
  | [] => decide (sub = [])
  | c :: rest => startsList sub (c :: rest) || containsList sub rest

/-- Lexicographic `≤` on char lists, comparing code points (models the order
`sorted` uses on path strings). -/
def lexLe : List Char → List Char → Bool
  | [], _ => true
  | _ :: _, [] => false
  | a :: as, b :: bs => if a < b then true else if b < a then false else lexLe as bs

/-- Python `s.lower()` (per-character lowercasing). -/
def pyLower (s : String) : String := ⟨s.data.map Char.toLower⟩

/-- Python `sub in s`. -/
def pyContains (s sub : String) : Bool := containsList sub.data s.data

/-- Python `s.endswith(suf)`. -/
def pyEndsWith (s suf : String) : Bool := startsList suf.data.reverse s.data.reverse

/-- Split at the first occurrence of character `c`
(Python `s.split(c, 1)` when `c` occurs). -/
def splitFirst (c : Char) : List Char → Option (List Char × List Char)
  | [] => none
  | x :: xs =>
    if x = c then some ([], xs)
    else match splitFirst c xs with
      | some (l, r) => some (x :: l, r)
      | none => none

/-- Fuel-driven worker for `pySplit`; `sep` is nonempty, `fuel ≥` length of the
remaining input, so the fuel-exhausted branch is never reached. -/
def pySplitAux (sep : List Char) : Nat → List Char → List Char → List (List Char)
  | _, cur, [] => [cur.reverse]
  | 0, cur, rest => [cur.reverse ++ rest]
  | fuel + 1, cur, c :: rest =>
    if startsList sep (c :: rest) then
      cur.reverse :: pySplitAux sep fuel [] (List.drop sep.length (c :: rest))
    else
      pySplitAux sep fuel (c :: cur) rest

/-- Python `s.split(sep)` for a nonempty separator. -/
def pySplit (s sep : String) : List String :=
  if sep.data = [] then [s]
  else (pySplitAux sep.data s.data.length [] s.data).map (fun l => ⟨l⟩)

/-- Worker for `pySplitLines`: split on newline characters. -/
def splitLinesAux : List Char → List Char → List (List Char)
  | cur, [] => [cur.reverse]
  | cur, c :: rest =>
    if c = '\n' then cur.reverse :: splitLinesAux [] rest
    else splitLinesAux (c :: cur) rest

/-- Python `s.splitlines()` (for `\n`-separated text): split on newlines,
with no trailing empty segment when the text ends in a newline. -/
def pySplitLines (s : String) : List String :=
  let ps := splitLinesAux [] s.data
  let ps := match ps.getLast? with
    | some [] => ps.dropLast
    | _ => ps
  ps.map (fun l => ⟨l⟩)

/-- Python `s.strip()`. -/
def pyStrip (s : String) : String :=
  ⟨((s.data.dropWhile Char.isWhitespace).reverse.dropWhile Char.isWhitespace).reverse⟩

/-- Structural replacement for `String.intercalate`. -/
def joinWith (sep : String) : List String → String
  | [] => ""
  | [x] => x
  | x :: y :: rest => ⟨x.data ++ sep.data ++ (joinWith sep (y :: rest)).data⟩

/-- Python `s.replace(old, new)` for nonempty `old`. -/
def pyReplace (s old new : String) : String := joinWith new (pySplit s old)

/-- Digits of a decimal literal to a natural number; `none` on a non-digit. -/
def digitsToNat : Nat → List Char → Option Nat
  | acc, [] => some acc
  | acc, c :: rest =>
    if c.isDigit then digitsToNat (acc * 10 + (c.toNat - '0'.toNat)) rest
    else none

/-- Python `int(s)` for decimal literals: optional sign, then at least one
digit (underscore grouping is not modelled; the source only parses plain
decimal byte counts). -/
def pyInt (s : String) : Option Int :=
  match s.data with
  | [] => none
  | '-' :: rest =>
    match rest with
    | [] => none
    | _ => (digitsToNat 0 rest).map (fun n => -(n : Int))
  | '+' :: rest =>
    match rest with
    | [] => none
    | _ => (digitsToNat 0 rest).map (fun n => (n : Int))
  | l => (digitsToNat 0 l).map (fun n => (n : Int))

/-- Python `s.removesuffix(suf)`. -/
def pyRemoveSuffix (s suf : String) : String :=
  if pyEndsWith s suf then ⟨s.data.take (s.data.length - suf.data.length)⟩ else s

/-- Python `pathlib.Path(s).suffix`: the extension of the final path
component, empty when the last dot is absent or leads the component. -/
def pySuffix (path : String) : String :=
  let baseRev := path.data.reverse.takeWhile (fun c => c ≠ '/')
  if baseRev.contains '.' then
    let afterRev := baseRev.takeWhile (fun c => c ≠ '.')
    let beforeRev := baseRev.drop (afterRev.length + 1)
    if beforeRev.isEmpty then "" else ⟨'.' :: afterRev.reverse⟩
  else ""

/-! ## Constants (arcompile.py lines 26-27) -/

def BAUD : Nat := 921600

def MAX_SIZE : Nat := 1310720

/-! ## Artifact roles and classification

`descargar_binarios` (lines 360-426) and `load_release_bins` (lines 577-602)
assign semantic roles to artifact filenames.  The on-disk dictionary
`Dict[str, Path]` is modelled as a function from roles to the (optional)
filename most recently assigned to that role. -/

inductive Role
  | bootloader
  | partitions
  | boot_app0
  | application
  | application_hex
deriving DecidableEq

def ArtifactDict := Role → Option String

/-- lines 387-389: accepts exactly `*.bootloader.bin`, not `*.with_bootloader.bin`. -/
def is_exact_bootloader (name : String) : Bool :=
  pyEndsWith name ".bootloader.bin" && !(pyContains name "with_bootloader")

/-- lines 391-392. -/
def is_exact_partitions (name : String) : Bool :=
  pyEndsWith name ".partitions.bin"

/-- lines 394-395. -/
def is_boot_app0 (name : String) : Bool :=
  pyEndsWith name "app0.bin" && !(pyContains name "with_bootloader")
    && !(pyContains name "merged")

/-- lines 397-404: accepts `*.ino.bin` or `<sketch>.bin`, never
`with_bootloader`/`merged` images. -/
def is_application_bin (sketch_name name : String) : Bool :=
  if pyContains name "with_bootloader" || pyContains name "merged" then false
  else if pyEndsWith name ".ino.bin" then true
  else name = pyRemoveSuffix (pyLower sketch_name) ".ino" ++ ".bin"

/-- The per-file rule cascade of the fresh-download classifier, lines 407-418
(`name` is the already-lowercased filename). -/
def classifyFreshRole (sketch_name name : String) : Option Role :=
  if pyEndsWith name ".hex" then some .application_hex
  else if is_exact_bootloader name then some .bootloader
  else if is_exact_partitions name then some .partitions
  else if is_boot_app0 name then some .boot_app0
  else if pyEndsWith name ".bin" && is_application_bin sketch_name name then some .application
  else none

/-- The shared shape of both classification loops: fold a per-file rule
cascade over a listing, later files overwriting earlier ones in the role
dictionary. -/
def roleFold (rule : String → Option Role) (listing : List String) : ArtifactDict :=
  listing.foldl
    (fun d archivo =>
      match rule archivo with
      | some r => fun q => if q = r then some archivo else d q
      | none => d)
    (fun _ => none)

/-- Model of `descargar_binarios`, classification loop of lines 407-418 (each file is
matched on its lowercased name). -/
def descargar_binarios (sketch_name : String) (listing : List String) : ArtifactDict :=
  roleFold (fun archivo => classifyFreshRole sketch_name (pyLower archivo)) listing

/-- The per-file rule cascade of `load_release_bins`, lines 586-600
(`low` is the already-lowercased filename). -/
def classifyReleaseRole (low : String) : Option Role :=
  if pyEndsWith low ".hex" then some .application_hex
  else if pyContains low "bootloader" && pyEndsWith low ".bin" then some .bootloader
  else if pyContains low "partition" && pyEndsWith low ".bin" then some .partitions
  else if pyContains low "app0" && pyEndsWith low ".bin" then some .boot_app0
  else if pyEndsWith low ".ino.bin" then some .application
  else if pyEndsWith low ".bin" && !(pyContains low "partition")
      && !(pyContains low "bootloader") && !(pyContains low "app0") then some .application
  else none

/-- Classification loop of `load_release_bins`, lines 585-600. -/
def load_release_dict (listing : List String) : ArtifactDict :=
  roleFold (fun archivo => classifyReleaseRole (pyLower archivo)) listing

/-! ## Release store (`save_release` / `load_release_bins` / meta records) -/

/-- Model of `write_meta` (lines 517-526): the text written to `.meta`. -/
def write_meta_text (name ts fqbn family : String) : String :=
  "NAME=" ++ name ++ "\n" ++ "DATE=" ++ ts ++ "\n" ++ "FQBN=" ++ fqbn ++ "\n"
    ++ "FAMILY=" ++ family ++ "\n"

/-- Model of the `read_meta` parsing loop (lines 536-541): `key=value` lines, first `=`
splits, keys and values stripped, later lines overwrite earlier ones. -/
def read_meta_dict (text : String) : String → Option String :=
  (pySplitLines text).foldl
    (fun d line =>
      match splitFirst '=' line.data with
      | some (k, v) => fun q => if q = pyStrip ⟨k⟩ then some (pyStrip ⟨v⟩) else d q
      | none => d)
    (fun _ => none)

/-- Model of `read_meta` (lines 528-541) including the heuristic fallback when the
`.meta` record is absent: any `.hex` file implies family `avr`. -/
def read_meta (metaText : Option String) (listing : List String) : String → Option String :=
  match metaText with
  | some t => read_meta_dict t
  | none => fun q =>
    if q = "FAMILY" then
      some (if listing.any (fun p => pySuffix p = ".hex") then "avr" else "esp32")
    else if q = "FQBN" then some ""
    else none

/-- A saved release: copied artifact filenames plus the `.meta` text
(`none` models a missing `.meta` file). -/
structure ReleaseEntry where
  files : List String
  meta : Option String
deriving DecidableEq

/-- The `releases/` directory: named release snapshots. -/
structure RelStore where
  entries : List (String × ReleaseEntry)
deriving DecidableEq

/-- The fixed list of filenames `save_release` copies (lines 553-569):
typical ESP32 names, then AVR `.hex` names. -/
def save_whitelist (cwdName : String) : List String :=
  ["main.ino.bootloader.bin", "main.ino.partitions.bin", "main.ino.bin", "boot_app0.bin",
   cwdName ++ ".ino.bootloader.bin", cwdName ++ ".ino.partitions.bin", cwdName ++ ".ino.bin",
   "main.ino.hex", cwdName ++ ".ino.hex", cwdName ++ ".hex"]

inductive SaveErr
  | noBinarios
  | duplicate
  | noArtifacts
deriving DecidableEq

/-- Model of `save_release` (lines 543-575).  `binariosPresent` is `Path("binarios").exists()`,
`bins` the listing of `./binarios`, `cwdName` is `Path.cwd().name`.  Each
`sys.exit` is modelled as returning the untouched-so-far store plus an error;
the `noArtifacts` exit happens after `dst.mkdir()`, so that branch records an
empty, meta-less release directory. -/
def save_release (binariosPresent : Bool) (bins : List String) (store : RelStore)
    (cwdName name fqbn family ts : String) : RelStore × Option SaveErr :=
  if binariosPresent = false then (store, some .noBinarios)
  else if store.entries.any (fun e => e.1 == name) then (store, some .duplicate)
  else
    let copied := (save_whitelist cwdName).filter (fun fn => bins.contains fn)
    if copied.isEmpty then
      (⟨(name, ⟨[], none⟩) :: store.entries⟩, some .noArtifacts)
    else
      (⟨(name, ⟨copied, some (write_meta_text name ts fqbn family)⟩) :: store.entries⟩, none)

/-- Model of `load_release_bins` (lines 577-602): look the release up, read its meta
(`FAMILY` defaulting to `"esp32"`), classify its files. -/
def load_release_bins (store : RelStore) (name : String) :
    Except String (ArtifactDict × String) :=
  match store.entries.find? (fun e => e.1 == name) with
  | none => .error "No existe releases/<name>"
  | some e =>
    let meta := read_meta e.2.meta e.2.files
    let family := (meta "FAMILY").getD "esp32"
    .ok (load_release_dict e.2.files, family)

/-! ## Chip family resolution (`familia_chip_de_fqbn`, lines 453-471) -/

/-- Model of `familia_chip_de_fqbn`: split on `:`; the `try/except` makes any segment
count other than exactly 3 collapse to three empty segments. -/
def familia_chip_de_fqbn (fqbn : String) : String :=
  let vab : String × String × String :=
    match pySplit fqbn ":" with
    | [v, a, b] => (pyLower v, pyLower a, pyLower b)
    | _ => ("", "", "")
  if vab.2.1 = "avr" || vab.1 = "arduino" then "avr"
  else if pyContains vab.2.2 "c3" then "esp32c3"
  else if pyContains vab.2.2 "s3" then "esp32s3"
  else "esp32"

/-! ## Flash layout and flash command construction -/

/-- One per-family entry of `FLASH_LAYOUT` (lines 49-73).  `boot_app0` is
`none` for the families whose dict has no `boot_app0` key. -/
structure Layout where
  bootloader : Nat
  partitions : Nat
  boot_app0 : Option Nat
  application : Nat
  use_boot_app0 : Bool
deriving DecidableEq

def esp32Layout : Layout := ⟨0x1000, 0x8000, some 0xE000, 0x10000, true⟩

def esp32c3Layout : Layout := ⟨0x0000, 0x8000, none, 0x10000, false⟩

def esp32s3Layout : Layout := ⟨0x0000, 0x8000, none, 0x10000, false⟩

/-- Model of `FLASH_LAYOUT` (lines 49-73). -/
def FLASH_LAYOUT (family : String) : Option Layout :=
  if family = "esp32" then some esp32Layout
  else if family = "esp32c3" then some esp32c3Layout
  else if family = "esp32s3" then some esp32s3Layout
  else none

/-- The esptool invocation built by `construir_flash_cmd`: the `write_flash`
argument pairs are kept as a structured plan. -/
structure FlashCmd where
  esptool : String
  port : String
  baud : Nat
  plan : List (Nat × String)
deriving DecidableEq

/-- One optional plan entry: `if role in files and files[role].exists()`. -/
def seg (off : Nat) (entry : Option String) (onDisk : String → Bool) : List (Nat × String) :=
  match entry with
  | some p => if onDisk p then [(off, p)] else []
  | none => []

/-- The `parts` accumulation of `construir_flash_cmd` (lines 483-498), in the
source fixed order: bootloader, partitions, boot-stub (only when the layout
uses it), application. -/
def plan_parts (files : ArtifactDict) (onDisk : String → Bool) (layout : Layout) :
    List (Nat × String) :=
  seg layout.bootloader (files .bootloader) onDisk ++
  seg layout.partitions (files .partitions) onDisk ++
  (if layout.use_boot_app0 then
    match layout.boot_app0 with
    | some off => seg off (files .boot_app0) onDisk
    | none => []
  else []) ++
  seg layout.application (files .application) onDisk

/-- Model of `construir_flash_cmd` (lines 474-508).  `onDisk` models `Path.exists()`. -/
def construir_flash_cmd (esptool com : String) (baud : Nat) (files : ArtifactDict)
    (onDisk : String → Bool) (family : String) : Except String FlashCmd :=
  if family = "avr" then .error "construir_flash_cmd no aplica a AVR"
  else
    let parts := plan_parts files onDisk ((FLASH_LAYOUT family).getD esp32Layout)
    if parts.isEmpty then .error "No se encontraron binarios para flashear (ESP32)."
    else .ok ⟨esptool, com, baud, parts⟩

/-! ## Build-size check and the single bounded recompile escalation -/

/-- The parse inside the `try` of `binario_excede_tamano` (lines 349-350):
`int(linea.split("Sketch uses")[1].split("bytes")[0].strip().replace(",", ""))`. -/
def parseSketchUses (linea : String) : Option Int :=
  match (pySplit linea "Sketch uses").get? 1 with
  | none => none
  | some tail1 =>
    let seg0 := (pySplit tail1 "bytes").headD ""
    pyInt (pyReplace (pyStrip seg0) "," "")

/-- Line loop of `binario_excede_tamano` (lines 347-355): the first marker line
whose parse succeeds decides; a failed parse (`except: pass`) falls through to
the next line. -/
def bexAux : List String → Bool
  | [] => false
  | linea :: rest =>
    if pyContains linea "Sketch uses" && pyContains linea "Maximum is" then
      match parseSketchUses linea with
      | some usado => decide (usado > (MAX_SIZE : Int))
      | none => bexAux rest
    else bexAux rest

/-- Model of `binario_excede_tamano` (lines 346-355). -/
def binario_excede_tamano (salida : String) : Bool :=
  bexAux (pySplitLines salida)

/-- The caller-side escalation in `main` (lines 765-768): returns how many
automatic recompiles are triggered and the final partition override.  The
source is a single straight-line `if`, not a loop. -/
def recompile_decision (used_family : String) (particion : Option String) (salida : String) :
    Nat × Option String :=
  if used_family != "avr" && particion.isNone && binario_excede_tamano salida then
    (1, some "min_spiffs")
  else (0, particion)

/-! ## Flashing engine (ESP32: `flash_release` lines 604-631, `main` lines 833-842) -/

/-- Outcome of the flashing procedure: how many external flashing-tool
invocations were made, and whether the procedure succeeded overall. -/
structure FlashRun where
  attempts : Nat
  success : Bool
deriving DecidableEq

/-- Model of `run(flash_cmd)` (line 630 / line 842): exactly one `subprocess.run` of the
flash command; `outcomes` lists the results successive external invocations
would produce, and a single one is consumed.  A `false` outcome raises
`CalledProcessError`, which no caller catches. -/
def run_external (outcomes : List Bool) : FlashRun :=
  ⟨1, outcomes.headD false⟩

/-- The ESP32 branch of `flash_release` (lines 626-631): build the esptool
command at the fixed `BAUD`, then run it once. -/
def flash_release_esp32 (files : ArtifactDict) (onDisk : String → Bool) (family : String)
    (com : String) (outcomes : List Bool) : Except String FlashRun :=
  match construir_flash_cmd "esptool.py" com BAUD files onDisk family with
  | .error e => .error e
  | .ok _cmd => .ok (run_external outcomes)

/-! ## Build cache (`hash_proyecto`, lines 429-434) -/

def trackedSuffixes : List String := [".ino", ".cpp", ".h", ".txt"]

/-- The filter of line 432: regular files whose `Path.suffix` is tracked.
Directory entries (excluded by `is_file()`) are not part of the modelled
listing. -/
def tracked (path : String) : Bool :=
  trackedSuffixes.contains (pySuffix path)

/-- Lexicographic order on full path strings, the order `sorted()` enumerates
the project files in. -/
def pathLe (a b : String) : Prop := lexLe a.data b.data = true

instance : DecidableRel pathLe := fun _ _ => inferInstanceAs (Decidable (_ = true))

instance : IsTrans String pathLe := by
  constructor
  have go : ∀ (a b c : List Char),
      lexLe a b = true → lexLe b c = true → lexLe a c = true := by
    intro a
    induction a with
    | nil =>
      intro b c _ _
      rfl
    | cons x xs ih =>
      intro b c h1 h2
      cases b with
      | nil => simp [lexLe] at h1
      | cons y ys =>
        cases c with
        | nil => simp [lexLe] at h2
        | cons z zs =>
          unfold lexLe at h1 h2 ⊢
          rcases lt_trichotomy x y with hxy | rfl | hxy
          · rcases lt_trichotomy y z with hyz | rfl | hyz
            · rw [if_pos (lt_trans hxy hyz)]
            · rw [if_pos hxy]
            · rw [if_neg (lt_asymm hyz), if_pos hyz] at h2
              exact absurd h2 (by simp)
          · rcases lt_trichotomy x z with hxz | rfl | hxz
            · rw [if_pos hxz]
            · rw [if_neg (lt_irrefl x), if_neg (lt_irrefl x)] at h1 h2 ⊢
              exact ih ys zs h1 h2
            · rw [if_neg (lt_asymm hxz), if_pos hxz] at h2
              exact absurd h2 (by simp)
          · rw [if_neg (lt_asymm hxy), if_pos hxy] at h1
            exact absurd h1 (by simp)
  intro a b c h1 h2
  exact go a.data b.data c.data h1 h2

instance : IsAntisymm String pathLe := by
  constructor
  have go : ∀ (a b : List Char), lexLe a b = true → lexLe b a = true → a = b := by
    intro a
    induction a with
    | nil =>
      intro b _ h2
      cases b with
      | nil => rfl
      | cons y ys => simp [lexLe] at h2
    | cons x xs ih =>
      intro b h1 h2
      cases b with
      | nil => simp [lexLe] at h1
      | cons y ys =>
        unfold lexLe at h1 h2
        rcases lt_trichotomy x y with hxy | rfl | hxy
        · rw [if_neg (lt_asymm hxy), if_pos hxy] at h2
          exact absurd h2 (by simp)
        · rw [if_neg (lt_irrefl x), if_neg (lt_irrefl x)] at h1 h2
          rw [ih ys h1 h2]
        · rw [if_neg (lt_asymm hxy), if_pos hxy] at h1
          exact absurd h1 (by simp)
  intro a b h1 h2
  have hd := go a.data b.data h1 h2
  cases a
  cases b
  exact congrArg String.mk hd

instance : IsTotal String pathLe := by
  constructor
  have go : ∀ (a b : List Char), lexLe a b = true ∨ lexLe b a = true := by
    intro a
    induction a with
    | nil =>
      intro b
      exact Or.inl rfl
    | cons x xs ih =>
      intro b
      cases b with
      | nil => exact Or.inr rfl
      | cons y ys =>
        unfold lexLe
        rcases lt_trichotomy x y with hxy | rfl | hxy
        · exact Or.inl (by rw [if_pos hxy])
        · simp only [lt_irrefl, if_false, if_neg (lt_irrefl x)]
          exact ih ys
        · exact Or.inr (by rw [if_pos hxy])
  intro a b
  exact go a.data b.data

def sortPaths (l : List String) : List String := l.insertionSort pathLe

/-- The exact byte stream `hash_proyecto` feeds to SHA-256: contents of the
tracked files, concatenated in sorted full-path order.  `contents` models
`Path.read_bytes`, `listing` the `rglob("*")` enumeration (in any order). -/
def hashStream (contents : String → List Nat) (listing : List String) : List Nat :=
  (((sortPaths listing).filter tracked).map contents).flatten

/-- Model of `hash_proyecto` (lines 429-434): the digest of the stream.  SHA-256 itself
is an external library function; it is modelled as an arbitrary fixed
`digest` over the byte stream the source constructs. -/
def hash_proyecto {D : Type} (digest : List Nat → D) (contents : String → List Nat)
    (listing : List String) : D :=
  digest (hashStream contents listing)

/-- The staleness decision of `main` line 757: `hash_actual != hash_anterior`. -/
def needs_compile (hashActual hashAnterior : String) : Bool :=
  hashActual != hashAnterior

/-! ## The `main` pipeline (lines 704-844), default build-and-flash invocation -/

/-- Inputs and external-world outcomes of one default `main` invocation.
`remoteBuild` abstracts the whole fresh-build interaction (upload, remote
compile with its internal retries and the size escalation, build-dir listing
and artifact download): `none` means some stage aborted via `sys.exit(msg)`
or an uncaught error, `some names` the downloaded `./binarios` listing. -/
structure MainEnv where
  inoPresent : Bool
  hashActual : String
  family : String
  remoteBuild : Option (List String)
  port : Option String
  flashOk : Bool
deriving DecidableEq

/-- The on-disk state `main` manipulates: the `./binarios` listing and the
`.build_hash` marker file. -/
structure MainState where
  binarios : List String
  buildHash : Option String
deriving DecidableEq

/-- Reuse-path check for ESP32 (lines 803-812): the three required `.bin`
names must be present (`boot_app0.bin` is optional). -/
def esp32_bins_present (cwdName : String) (bins : List String) : Bool :=
  bins.contains (cwdName ++ ".ino.bootloader.bin") &&
  bins.contains (cwdName ++ ".ino.partitions.bin") &&
  bins.contains (cwdName ++ ".ino.bin")

/-- Reuse-path check for AVR (lines 791-800): any of the four candidate hex
names (`sketch_name` is `cwdName + ".ino"`). -/
def avr_hex_present (cwdName : String) (bins : List String) : Bool :=
  bins.contains (cwdName ++ ".ino.hex") ||
  bins.contains (cwdName ++ ".ino.ino.hex") ||
  bins.contains (cwdName ++ ".hex")

/-- Lines 744-812 of `main`: everything before the port probe.  Result is
`(some code, st)` when the process exits early (every such exit is
`sys.exit(msg)`, i.e. process exit code 1), or `(none, st)` with artifacts
ready.  On the fresh-build path the `.build_hash` marker is written (line 785)
before the port probe, so the post-build state already carries it. -/
def buildPhase (env : MainEnv) (cwdName : String) (st : MainState) :
    Option Nat × MainState :=
  if env.inoPresent = false then (some 1, st)
  else if needs_compile env.hashActual (st.buildHash.getD "") then
    match env.remoteBuild with
    | none => (some 1, st)
    | some names => (none, ⟨names, some env.hashActual⟩)
  else
    if env.family = "avr" then
      if avr_hex_present cwdName st.binarios then (none, st) else (some 1, st)
    else
      if esp32_bins_present cwdName st.binarios then (none, st) else (some 1, st)

/-- Lines 814-844 of `main`: the port probe and the single flash/upload
invocation.  `puerto_esp32_optional` returning `None` is `sys.exit(2)`;
a failing flash raises out of the interpreter (process exit code 1). -/
def flashPhase (env : MainEnv) (st : MainState) : Nat × MainState :=
  match env.port with
  | none => (2, st)
  | some _ => (if env.flashOk then 0 else 1, st)

/-- The default `main` invocation: build-or-reuse, then flash. -/
def main_model (env : MainEnv) (cwdName : String) (st : MainState) : Nat × MainState :=
  match buildPhase env cwdName st with
  | (some c, st2) => (c, st2)
  | (none, st2) => flashPhase env st2

/-! ## Concrete fixtures used by witnesses and counterexamples -/

/-- A size-report line as produced by the remote toolchain. -/
def sketchUsesBig : String :=
  "Sketch uses 1400000 bytes (93%) of program storage space. Maximum is 1310720 bytes."

/-- An artifact set with all four ESP32 artifacts present. -/
def filesAll : ArtifactDict := fun r =>
  match r with
  | .bootloader => some "myproj.ino.bootloader.bin"
  | .partitions => some "myproj.ino.partitions.bin"
  | .boot_app0 => some "boot_app0.bin"
  | .application => some "myproj.ino.bin"
  | .application_hex => none

/-- Oracle for `Path.exists`: everything on disk. -/
def onDiskAll : String → Bool := fun _ => true

/-- A release store already holding a release named `r`. -/
def relStore0 : RelStore :=
  ⟨[("r", ⟨["main.ino.bin"], some "NAME=r\nDATE=d\nFQBN=f\nFAMILY=esp32\n"⟩)]⟩

/-! # Supporting lemmas -/

/-! ## Substring facts -/

theorem startsList_iff {a s : List Char} : startsList a s = true ↔ ∃ t, s = a ++ t := by
  induction a generalizing s with
  | nil => simp [startsList]
  | cons x xs ih =>
    cases s with
    | nil => simp [startsList]
    | cons y ys =>
      simp only [startsList, Bool.and_eq_true, decide_eq_true_eq, ih, List.cons_append,
        List.cons.injEq]
      constructor
      · rintro ⟨rfl, t, rfl⟩
        exact ⟨t, rfl, rfl⟩
      · rintro ⟨t, rfl, rfl⟩
        exact ⟨rfl, t, rfl⟩

theorem containsList_iff {a s : List Char} :
    containsList a s = true ↔ ∃ l r, s = l ++ a ++ r := by
  induction s with
  | nil =>
    simp only [containsList, decide_eq_true_eq]
    constructor
    · rintro rfl
      exact ⟨[], [], rfl⟩
    · rintro ⟨l, r, h⟩
      rcases List.append_eq_nil.mp h.symm with ⟨h1, h2⟩
      exact (List.append_eq_nil.mp h1).2
  | cons c rest ih =>
    simp only [containsList, Bool.or_eq_true, startsList_iff, ih]
    constructor
    · rintro (⟨t, ht⟩ | ⟨l, r, hlr⟩)
      · exact ⟨[], t, by simpa using ht⟩
      · exact ⟨c :: l, r, by simp [hlr]⟩
    · rintro ⟨l, r, hlr⟩
      cases l with
      | nil => exact Or.inl ⟨r, by simpa using hlr⟩
      | cons x xs =>
        simp only [List.cons_append, List.cons.injEq] at hlr
        exact Or.inr ⟨xs, r, hlr.2⟩

theorem startsList_trans {a b c : List Char} (hab : startsList a b = true)
    (hbc : startsList b c = true) : startsList a c = true := by
  rcases startsList_iff.mp hab with ⟨t, rfl⟩
  rcases startsList_iff.mp hbc with ⟨u, rfl⟩
  exact startsList_iff.mpr ⟨t ++ u, by simp⟩

theorem containsList_trans {a b s : List Char} (hab : containsList a b = true)
    (hbs : containsList b s = true) : containsList a s = true := by
  rcases containsList_iff.mp hab with ⟨l₂, r₂, rfl⟩
  rcases containsList_iff.mp hbs with ⟨l₁, r₁, rfl⟩
  exact containsList_iff.mpr ⟨l₁ ++ l₂, r₂ ++ r₁, by simp⟩

theorem pyContains_bootloader_of_with {n : String}
    (h : pyContains n "with_bootloader" = true) : pyContains n "bootloader" = true :=
  containsList_trans (by decide) h

theorem pyEndsWith_bin_of_ino_bin {n : String}
    (h : pyEndsWith n ".ino.bin" = true) : pyEndsWith n ".bin" = true :=
  startsList_trans (by decide) h

theorem pyEndsWith_bin_of_bootloader_bin {n : String}
    (h : pyEndsWith n ".bootloader.bin" = true) : pyEndsWith n ".bin" = true :=
  startsList_trans (by decide) h

/-! # Claim C1 — `with_bootloader` filenames and role assignment -/

/-- C1, counterexample.  The claim quantifies over listings "from a fresh
remote build or from a previously saved release".  On the release-load path
(`load_release_bins`, lines 590-591) a `.bin` filename containing
`with_bootloader` also contains the substring `bootloader`, so it IS assigned
role `Bootloader`. -/
theorem c1_counterexample :
    pyContains "sketch.ino.with_bootloader.bin" "with_bootloader" = true ∧
    load_release_dict ["sketch.ino.with_bootloader.bin"] Role.bootloader
      = some "sketch.ino.with_bootloader.bin" := by
  constructor
  · decide
  · decide

/-- C1, amended.  A filename containing `with_bootloader` is never assigned
role `Bootloader`, `BootStub` (`boot_app0`) or `Application` by the
fresh-build classifier (`descargar_binarios`), and never `BootStub` or
`Application` by the release-load classifier (`load_release_bins`); the
release-load classifier does, however, assign such a `.bin` file the
`Bootloader` role (see `c1_counterexample`). -/
theorem c1_with_bootloader_never_flashable_role (sketch n : String)
    (h : pyContains n "with_bootloader" = true) :
    (classifyFreshRole sketch n ≠ some Role.bootloader ∧
     classifyFreshRole sketch n ≠ some Role.boot_app0 ∧
     classifyFreshRole sketch n ≠ some Role.application) ∧
    (classifyReleaseRole n ≠ some Role.boot_app0 ∧
     classifyReleaseRole n ≠ some Role.application) := by
  have hb : pyContains n "bootloader" = true := pyContains_bootloader_of_with h
  constructor
  · unfold classifyFreshRole is_exact_bootloader is_boot_app0 is_application_bin
    simp only [h, Bool.not_true, Bool.and_false, Bool.false_and, Bool.true_or, if_false,
      Bool.and_self, if_true, Bool.false_eq_true]
    split <;> simp_all
  · unfold classifyReleaseRole
    by_cases hhex : pyEndsWith n ".hex" = true
    · simp [hhex]
    · by_cases hbin : pyEndsWith n ".bin" = true
      · simp [hhex, hb, hbin]
      · have hinobin : pyEndsWith n ".ino.bin" = false := by
          cases hx : pyEndsWith n ".ino.bin"
          · rfl
          · exact absurd (pyEndsWith_bin_of_ino_bin hx) (by simp [hbin])
        simp [hhex, hbin, hinobin]

/-- C1, witness for the amended theorem at a concrete input. -/
theorem c1_witness :
    pyContains "x.with_bootloader.bin" "with_bootloader" = true ∧
    ((classifyFreshRole "myproj.ino" "x.with_bootloader.bin" ≠ some Role.bootloader ∧
      classifyFreshRole "myproj.ino" "x.with_bootloader.bin" ≠ some Role.boot_app0 ∧
      classifyFreshRole "myproj.ino" "x.with_bootloader.bin" ≠ some Role.application) ∧
     (classifyReleaseRole "x.with_bootloader.bin" ≠ some Role.boot_app0 ∧
      classifyReleaseRole "x.with_bootloader.bin" ≠ some Role.application)) :=
  ⟨by decide, c1_with_bootloader_never_flashable_role "myproj.ino" "x.with_bootloader.bin"
    (by decide)⟩

/-! # Claim C3 — totality and decision order of chip family resolution -/

/-- C3, counterexample.  The claim states identifiers of the form
`vendor:arch:board[:options]` follow the decision order (vendor `arduino` /
arch `avr` → `Avr`).  But `vendor, arch, board = fqbn.split(":")` raises on a
4-segment identifier, so the `except` branch blanks ALL segments and the
resolver returns `esp32` (Classic), not `avr`. -/
theorem c3_counterexample :
    (pySplit "arduino:avr:micro:cpu=atmega32u4" ":").get? 0 = some "arduino" ∧
    (pySplit "arduino:avr:micro:cpu=atmega32u4" ":").get? 1 = some "avr" ∧
    familia_chip_de_fqbn "arduino:avr:micro:cpu=atmega32u4" = "esp32" := by
  refine ⟨by decide, by decide, by decide⟩

/-- Resolution of the all-empty segment triple (the `except` branch):
no condition fires, so the result is `esp32`. -/
theorem familia_empty_segments_eq :
    (if (decide (("" : String) = "avr") || decide (("" : String) = "arduino")) = true then "avr"
     else if pyContains "" "c3" = true then "esp32c3"
     else if pyContains "" "s3" = true then "esp32s3" else "esp32") = "esp32" := by
  decide

/-- C3, amended.  Resolution is total (always one of the four family tags);
identifiers splitting into exactly 3 segments follow the claimed decision
order; identifiers with any other segment count — fewer than 3 OR more than 3
(i.e. with `:options` present) — are resolved with all segments treated as
empty and therefore yield `esp32` (Classic). -/
theorem c3_family_resolution (s : String) :
    (familia_chip_de_fqbn s = "avr" ∨ familia_chip_de_fqbn s = "esp32c3" ∨
     familia_chip_de_fqbn s = "esp32s3" ∨ familia_chip_de_fqbn s = "esp32") ∧
    (∀ v a b, pySplit s ":" = [v, a, b] →
      familia_chip_de_fqbn s =
        (if pyLower a = "avr" ∨ pyLower v = "arduino" then "avr"
         else if pyContains (pyLower b) "c3" = true then "esp32c3"
         else if pyContains (pyLower b) "s3" = true then "esp32s3"
         else "esp32")) ∧
    ((pySplit s ":").length ≠ 3 → familia_chip_de_fqbn s = "esp32") := by
  unfold familia_chip_de_fqbn
  rcases hp : pySplit s ":" with _ | ⟨v, _ | ⟨a, _ | ⟨b, _ | ⟨c, rest⟩⟩⟩⟩ <;> simp only [hp]
  case cons.cons.cons.nil =>
    refine ⟨?_, ?_, ?_⟩
    · by_cases h1 : (decide (pyLower a = "avr") || decide (pyLower v = "arduino")) = true
      · simp [h1]
      · by_cases h2 : pyContains (pyLower b) "c3" = true <;>
          by_cases h3 : pyContains (pyLower b) "s3" = true <;>
          simp [h1, h2, h3]
    · intro v' a' b' h
      simp only [List.cons.injEq, and_true] at h
      obtain ⟨rfl, rfl, rfl⟩ := h
      simp only [Bool.or_eq_true, decide_eq_true_eq]
    · intro h
      simp at h
  all_goals
    exact ⟨Or.inr (Or.inr (Or.inr familia_empty_segments_eq)),
      fun v' a' b' h => by simp at h, fun _ => familia_empty_segments_eq⟩

/-- C3, witness: the amended decision-order clause applied at a concrete
3-segment identifier. -/
theorem c3_witness :
    familia_chip_de_fqbn "arduino:avr:micro" =
      (if pyLower "avr" = "avr" ∨ pyLower "arduino" = "arduino" then "avr"
       else if pyContains (pyLower "micro") "c3" = true then "esp32c3"
       else if pyContains (pyLower "micro") "s3" = true then "esp32s3"
       else "esp32") :=
  (c3_family_resolution "arduino:avr:micro").2.1 "arduino" "avr" "micro" (by decide)

/-! # Claim C7 — size-exceeded check and the single `min_spiffs` escalation -/

/-- C7, counterexample.  The claim quantifies over "every successful build
output", but the escalation of `main` line 765 also requires
`used_family != "avr"`: for an AVR invocation with an oversized report and no
override in effect, no recompile is triggered (the claim demands exactly
one). -/
theorem c7_counterexample :
    binario_excede_tamano sketchUsesBig = true ∧
    recompile_decision "avr" none sketchUsesBig = (0, none) := by
  constructor
  · decide
  · decide

/-- C7, amended.  For non-AVR (ESP32-family) invocations: an oversized report
with no partition override in effect triggers exactly one automatic recompile
with `min_spiffs`; a non-oversized report triggers none; an override already
in effect suppresses the escalation regardless of size; and the number of
automatic recompiles never exceeds 1 (the source is one straight-line `if`,
not a loop). -/
theorem c7_single_bounded_escalation (family : String) (particion : Option String)
    (salida : String) (hfam : family ≠ "avr") :
    (particion = none → binario_excede_tamano salida = true →
      recompile_decision family particion salida = (1, some "min_spiffs")) ∧
    (particion = none → binario_excede_tamano salida = false →
      recompile_decision family particion salida = (0, none)) ∧
    (∀ p, particion = some p → recompile_decision family particion salida = (0, some p)) ∧
    (recompile_decision family particion salida).1 ≤ 1 := by
  have hf : (family != "avr") = true := by simp [bne_iff_ne, hfam]
  refine ⟨?_, ?_, ?_, ?_⟩
  · intro hp hbex
    simp [recompile_decision, hf, hp, hbex]
  · intro hp hbex
    simp [recompile_decision, hf, hp, hbex]
  · intro p hp
    simp [recompile_decision, hp]
  · unfold recompile_decision
    by_cases hcond :
        (family != "avr" && particion.isNone && binario_excede_tamano salida) = true <;>
      simp [hcond]

/-- C7, witness for the amended theorem at a concrete ESP32 invocation. -/
theorem c7_witness :
    ("esp32" : String) ≠ "avr" ∧
    ((none = (none : Option String) → binario_excede_tamano sketchUsesBig = true →
       recompile_decision "esp32" none sketchUsesBig = (1, some "min_spiffs")) ∧
     (none = (none : Option String) → binario_excede_tamano sketchUsesBig = false →
       recompile_decision "esp32" none sketchUsesBig = (0, none)) ∧
     (∀ p, (none : Option String) = some p →
       recompile_decision "esp32" none sketchUsesBig = (0, some p)) ∧
     (recompile_decision "esp32" none sketchUsesBig).1 ≤ 1) :=
  ⟨by decide, c7_single_bounded_escalation "esp32" none sketchUsesBig (by decide)⟩

/-! # Claim C2 — write plans are ascending; exact Classic ESP32 plan -/

theorem seg_offsets_sublist (off : Nat) (entry : Option String) (onDisk : String → Bool) :
    List.Sublist ((seg off entry onDisk).map Prod.fst) [off] := by
  unfold seg
  cases entry with
  | none => simp
  | some p =>
    by_cases h : onDisk p = true <;> simp [h]

theorem chain_of_four_segs (l1 l2 l3 l4 : List (Nat × String)) (o1 o2 o3 o4 : Nat)
    (h1 : List.Sublist (l1.map Prod.fst) [o1]) (h2 : List.Sublist (l2.map Prod.fst) [o2])
    (h3 : List.Sublist (l3.map Prod.fst) [o3]) (h4 : List.Sublist (l4.map Prod.fst) [o4])
    (hc : List.Chain' (· < ·) [o1, o2, o3, o4]) :
    List.Chain' (· < ·) (((l1 ++ l2 ++ l3 ++ l4).map Prod.fst)) := by
  have hsub : List.Sublist ((l1 ++ l2 ++ l3 ++ l4).map Prod.fst)
      ([o1] ++ [o2] ++ [o3] ++ [o4]) := by
    simp only [List.map_append]
    exact ((h1.append h2).append h3).append h4
  exact hc.sublist hsub

/-- When `construir_flash_cmd` succeeds, the command holds exactly the plan
built from the family layout, at the requested baud rate. -/
theorem construir_ok_eq {esptool com : String} {baud : Nat} {files : ArtifactDict}
    {onDisk : String → Bool} {family : String} {cmd : FlashCmd}
    (hok : construir_flash_cmd esptool com baud files onDisk family = .ok cmd) :
    cmd = ⟨esptool, com, baud, plan_parts files onDisk ((FLASH_LAYOUT family).getD esp32Layout)⟩ := by
  unfold construir_flash_cmd at hok
  by_cases h1 : family = "avr"
  · rw [if_pos h1] at hok
    exact absurd hok (by simp)
  · rw [if_neg h1] at hok
    by_cases h2 :
        (plan_parts files onDisk ((FLASH_LAYOUT family).getD esp32Layout)).isEmpty = true
    · rw [if_pos h2] at hok
      exact absurd hok (by simp)
    · rw [if_neg h2] at hok
      simpa using hok.symm

theorem plan_parts_chain (files : ArtifactDict) (onDisk : String → Bool) (layout : Layout)
    (o3 : Nat)
    (h12 : layout.bootloader < layout.partitions)
    (h23 : layout.partitions < o3) (h34 : o3 < layout.application)
    (hstub : layout.use_boot_app0 = true → layout.boot_app0 = some o3) :
    List.Chain' (· < ·) ((plan_parts files onDisk layout).map Prod.fst) := by
  unfold plan_parts
  refine chain_of_four_segs _ _ _ _ layout.bootloader layout.partitions o3 layout.application
    (seg_offsets_sublist _ _ _) (seg_offsets_sublist _ _ _) ?_ (seg_offsets_sublist _ _ _) ?_
  · by_cases hu : layout.use_boot_app0 = true
    · rw [if_pos hu, hstub hu]
      exact seg_offsets_sublist _ _ _
    · rw [if_neg hu]
      simp
  · simp only [List.chain'_cons, List.chain'_singleton, and_true]
    exact ⟨h12, h23, h34⟩

/-- C2, confirmed.  For every artifact set and every ESP32-family layout, a
successfully built write plan is strictly ascending by offset; and for
Classic ESP32 with all four artifacts present (and on disk) the plan offsets
are exactly `[0x1000, 0x8000, 0xE000, 0x10000]`. -/
theorem c2_plan_sorted_ascending (esptool com : String) (baud : Nat) (files : ArtifactDict)
    (onDisk : String → Bool) (family : String) (cmd : FlashCmd)
    (hfam : family = "esp32" ∨ family = "esp32c3" ∨ family = "esp32s3")
    (hok : construir_flash_cmd esptool com baud files onDisk family = .ok cmd) :
    List.Chain' (· < ·) (cmd.plan.map Prod.fst) ∧
    (family = "esp32" →
      ∀ pb pp ps pa,
        files .bootloader = some pb → onDisk pb = true →
        files .partitions = some pp → onDisk pp = true →
        files .boot_app0 = some ps → onDisk ps = true →
        files .application = some pa → onDisk pa = true →
        cmd.plan.map Prod.fst = [0x1000, 0x8000, 0xE000, 0x10000]) := by
  have hcmd := construir_ok_eq hok
  subst hcmd
  rcases hfam with rfl | rfl | rfl
  · constructor
    · exact plan_parts_chain files onDisk _ 0xE000 (by decide) (by decide) (by decide)
        (fun _ => rfl)
    · intro _ pb pp ps pa hb hbd hp hpd hs hsd ha had
      simp [plan_parts, FLASH_LAYOUT, esp32Layout, seg, hb, hbd, hp, hpd, hs, hsd, ha, had]
  · refine ⟨?_, fun h => absurd h (by decide)⟩
    exact plan_parts_chain files onDisk _ 0x9000 (by decide) (by decide) (by decide)
      (fun h => absurd h (by decide))
  · refine ⟨?_, fun h => absurd h (by decide)⟩
    exact plan_parts_chain files onDisk _ 0x9000 (by decide) (by decide) (by decide)
      (fun h => absurd h (by decide))

/-- C2, witness: concrete Classic ESP32 invocation with all four artifacts. -/
theorem c2_witness :
    ("esp32" = "esp32" ∨ ("esp32" : String) = "esp32c3" ∨ ("esp32" : String) = "esp32s3") ∧
    construir_flash_cmd "esptool.py" "COM3" 921600 filesAll onDiskAll "esp32"
      = .ok ⟨"esptool.py", "COM3", 921600,
          [(0x1000, "myproj.ino.bootloader.bin"), (0x8000, "myproj.ino.partitions.bin"),
           (0xE000, "boot_app0.bin"), (0x10000, "myproj.ino.bin")]⟩ ∧
    (List.Chain' (· < ·)
        ((FlashCmd.plan ⟨"esptool.py", "COM3", 921600,
          [(0x1000, "myproj.ino.bootloader.bin"), (0x8000, "myproj.ino.partitions.bin"),
           (0xE000, "boot_app0.bin"), (0x10000, "myproj.ino.bin")]⟩).map Prod.fst)) :=
  ⟨Or.inl rfl, by decide,
    (c2_plan_sorted_ascending "esptool.py" "COM3" 921600 filesAll onDiskAll "esp32" _
      (Or.inl rfl) (by decide)).1⟩

/-! # Claim C4 — no three-rung retry ladder exists in the flashing engine -/

/-- C4, counterexample.  The claim describes a three-attempt ladder (high
speed, reduced speed, reduced speed no-stub) and predicts that an invocation
failing twice and succeeding on the third rung reports success with attempt
count 3.  The source (`flash_release` line 630, `main` line 842) performs a
single `run(flash_cmd)`: with external outcomes fail, fail, succeed, the
engine consumes 1 attempt and propagates the failure. -/
theorem c4_counterexample :
    flash_release_esp32 filesAll onDiskAll "esp32" "COM3" [false, false, true]
      = .ok ⟨1, false⟩ := by
  decide

/-- C4, amended.  The ESP32 flashing path makes exactly one external
flashing-tool invocation, at the single fixed baud rate 921600 with the
standard (stub) protocol; its success is exactly the first external outcome —
there is no reduced-speed rung, no no-stub rung, and no retry. -/
theorem c4_single_invocation (files : ArtifactDict) (onDisk : String → Bool)
    (family com : String) (outcomes : List Bool) (run : FlashRun)
    (hok : flash_release_esp32 files onDisk family com outcomes = .ok run) :
    run.attempts = 1 ∧ run.success = outcomes.headD false ∧
    ∀ cmd, construir_flash_cmd "esptool.py" com BAUD files onDisk family = .ok cmd →
      cmd.baud = 921600 := by
  unfold flash_release_esp32 at hok
  cases hcc : construir_flash_cmd "esptool.py" com BAUD files onDisk family with
  | error e =>
    rw [hcc] at hok
    exact absurd hok (by simp)
  | ok cmd0 =>
    rw [hcc] at hok
    simp only [Except.ok.injEq] at hok
    subst hok
    refine ⟨rfl, rfl, ?_⟩
    intro cmd h
    simp only [Except.ok.injEq] at h
    subst h
    have hc := construir_ok_eq hcc
    subst hc
    rfl

/-- C4, witness for the amended theorem at a concrete successful flash. -/
theorem c4_witness :
    flash_release_esp32 filesAll onDiskAll "esp32" "COM3" [true] = .ok ⟨1, true⟩ ∧
    (FlashRun.mk 1 true).attempts = 1 ∧
    (FlashRun.mk 1 true).success = [true].headD false ∧
    (∀ cmd, construir_flash_cmd "esptool.py" "COM3" BAUD filesAll onDiskAll "esp32" = .ok cmd →
      cmd.baud = 921600) := by
  constructor
  · decide
  · exact c4_single_invocation filesAll onDiskAll "esp32" "COM3" [true] ⟨1, true⟩ (by decide)

/-! # Claim C6 — duplicate release names -/

/-- C6, counterexample.  The claim says a `save` with an existing name "fails
with a duplicate-name error".  But `save_release` checks `./binarios` first
(lines 544-546): in a state where `./binarios` is absent and the name exists,
the failure is the missing-binarios error, not the duplicate-name error (the
store is still left unchanged). -/
theorem c6_counterexample :
    relStore0.entries.any (fun e => e.1 == "r") = true ∧
    save_release false ["main.ino.bin"] relStore0 "myproj" "r" "f" "esp32" "ts"
      = (relStore0, some SaveErr.noBinarios) := by
  constructor
  · decide
  · decide

/-- C6, amended.  For every store state in which the release name already
exists, `save_release` fails (returns an error) and leaves the store —
hence the existing release files and metadata — completely unchanged;
whenever `./binarios` exists (so the name check is reached) the error is
specifically the duplicate-name error. -/
theorem c6_duplicate_no_mutation (binariosPresent : Bool) (bins : List String)
    (store : RelStore) (cwdName name fqbn family ts : String)
    (hdup : store.entries.any (fun e => e.1 == name) = true) :
    (save_release binariosPresent bins store cwdName name fqbn family ts).1 = store ∧
    (∃ e, (save_release binariosPresent bins store cwdName name fqbn family ts).2 = some e) ∧
    (binariosPresent = true →
      (save_release binariosPresent bins store cwdName name fqbn family ts).2
        = some SaveErr.duplicate) := by
  cases binariosPresent with
  | false =>
    refine ⟨rfl, ⟨SaveErr.noBinarios, rfl⟩, ?_⟩
    intro h
    exact absurd h (by simp)
  | true =>
    unfold save_release
    rw [if_neg (by simp), if_pos hdup]
    exact ⟨rfl, ⟨SaveErr.duplicate, rfl⟩, fun _ => rfl⟩

/-- C6, witness for the amended theorem at a concrete store. -/
theorem c6_witness :
    relStore0.entries.any (fun e => e.1 == "r") = true ∧
    ((save_release true ["main.ino.bin"] relStore0 "myproj" "r" "f" "esp32" "ts").1
        = relStore0 ∧
     (∃ e, (save_release true ["main.ino.bin"] relStore0 "myproj" "r" "f" "esp32" "ts").2
        = some e) ∧
     (true = true →
      (save_release true ["main.ino.bin"] relStore0 "myproj" "r" "f" "esp32" "ts").2
        = some SaveErr.duplicate)) := by
  constructor
  · decide
  · exact c6_duplicate_no_mutation true ["main.ino.bin"] relStore0 "myproj" "r" "f" "esp32" "ts"
      (by decide)

/-! # Claim C5 — save/load round trip of releases -/

theorem splitLines_cons (x : List Char) (hx : ¬ '\n' ∈ x) :
    ∀ (acc rest : List Char),
      splitLinesAux acc (x ++ '\n' :: rest) = (acc.reverse ++ x) :: splitLinesAux [] rest := by
  induction x with
  | nil =>
    intro acc rest
    simp [splitLinesAux]
  | cons c cs ih =>
    intro acc rest
    have hc : ¬ c = '\n' := fun hh => hx (hh ▸ List.mem_cons_self c cs)
    have hcs : ¬ '\n' ∈ cs := fun hh => hx (List.mem_cons_of_mem _ hh)
    simp only [List.cons_append, splitLinesAux, if_neg hc, List.append_eq]
    rw [ih hcs (c :: acc) rest]
    simp [List.reverse_cons, List.append_assoc]

theorem splitFirst_key :
    ∀ (k : List Char), ¬ '=' ∈ k → ∀ v, splitFirst '=' (k ++ '=' :: v) = some (k, v) := by
  intro k
  induction k with
  | nil =>
    intro _ v
    simp [splitFirst]
  | cons c cs ih =>
    intro h v
    have hc : ¬ c = '=' := fun hh => h (hh ▸ List.mem_cons_self c cs)
    have hcs : ¬ '=' ∈ cs := fun hh => h (List.mem_cons_of_mem _ hh)
    simp [splitFirst, hc, ih hcs v]

theorem pySplitLines_write_meta (name ts fqbn family : String)
    (h1 : ¬ '\n' ∈ name.data) (h2 : ¬ '\n' ∈ ts.data) (h3 : ¬ '\n' ∈ fqbn.data)
    (h4 : ¬ '\n' ∈ family.data) :
    pySplitLines (write_meta_text name ts fqbn family)
      = ["NAME=" ++ name, "DATE=" ++ ts, "FQBN=" ++ fqbn, "FAMILY=" ++ family] := by
  have hx1 : ¬ '\n' ∈ ("NAME=" ++ name).data := by
    rw [show ("NAME=" ++ name).data = "NAME=".data ++ name.data from rfl]
    simp only [List.mem_append, not_or]
    exact ⟨by decide, h1⟩
  have hx2 : ¬ '\n' ∈ ("DATE=" ++ ts).data := by
    rw [show ("DATE=" ++ ts).data = "DATE=".data ++ ts.data from rfl]
    simp only [List.mem_append, not_or]
    exact ⟨by decide, h2⟩
  have hx3 : ¬ '\n' ∈ ("FQBN=" ++ fqbn).data := by
    rw [show ("FQBN=" ++ fqbn).data = "FQBN=".data ++ fqbn.data from rfl]
    simp only [List.mem_append, not_or]
    exact ⟨by decide, h3⟩
  have hx4 : ¬ '\n' ∈ ("FAMILY=" ++ family).data := by
    rw [show ("FAMILY=" ++ family).data = "FAMILY=".data ++ family.data from rfl]
    simp only [List.mem_append, not_or]
    exact ⟨by decide, h4⟩
  have hdata : (write_meta_text name ts fqbn family).data
      = ("NAME=" ++ name).data ++ '\n' ::
        (("DATE=" ++ ts).data ++ '\n' ::
          (("FQBN=" ++ fqbn).data ++ '\n' :: (("FAMILY=" ++ family).data ++ '\n' :: []))) := by
    simp [write_meta_text, List.append_assoc]
  unfold pySplitLines
  rw [hdata, splitLines_cons _ hx1, splitLines_cons _ hx2, splitLines_cons _ hx3,
    splitLines_cons _ hx4]
  simp only [splitLinesAux, List.nil_append, List.reverse_nil, List.getLast?_cons,
    List.getLast?_singleton, List.dropLast, List.map]

theorem read_meta_dict_write (name ts fqbn family : String)
    (h1 : ¬ '\n' ∈ name.data) (h2 : ¬ '\n' ∈ ts.data) (h3 : ¬ '\n' ∈ fqbn.data)
    (h4 : ¬ '\n' ∈ family.data) :
    read_meta_dict (write_meta_text name ts fqbn family) "FAMILY" = some (pyStrip family) := by
  unfold read_meta_dict
  rw [pySplitLines_write_meta name ts fqbn family h1 h2 h3 h4]
  simp only [List.foldl]
  rw [show ("FAMILY=" ++ family).data = "FAMILY".data ++ '=' :: family.data from rfl]
  rw [splitFirst_key "FAMILY".data (by decide) family.data]
  simp only []
  rw [if_pos (show ("FAMILY" : String) = pyStrip ⟨"FAMILY".data⟩ from by decide)]

/-- Totality of family resolution: the result is always one of the four
family tags. -/
theorem familia_chip_mem (s : String) :
    familia_chip_de_fqbn s = "avr" ∨ familia_chip_de_fqbn s = "esp32c3" ∨
    familia_chip_de_fqbn s = "esp32s3" ∨ familia_chip_de_fqbn s = "esp32" := by
  unfold familia_chip_de_fqbn
  rcases hp : pySplit s ":" with _ | ⟨v, _ | ⟨a, _ | ⟨b, _ | ⟨c, rest⟩⟩⟩⟩ <;> simp only [hp]
  case cons.cons.cons.nil =>
    by_cases hA : (decide (pyLower a = "avr") || decide (pyLower v = "arduino")) = true
    · simp [hA]
    · by_cases hc3 : pyContains (pyLower b) "c3" = true <;>
        by_cases hs3 : pyContains (pyLower b) "s3" = true <;>
        simp [hA, hc3, hs3]
  all_goals exact Or.inr (Or.inr (Or.inr familia_empty_segments_eq))

theorem pyStrip_familia (fqbn : String) :
    pyStrip (familia_chip_de_fqbn fqbn) = familia_chip_de_fqbn fqbn := by
  rcases familia_chip_mem fqbn with h | h | h | h <;> rw [h] <;> decide

theorem newline_not_mem_familia (fqbn : String) :
    ¬ '\n' ∈ (familia_chip_de_fqbn fqbn).data := by
  rcases familia_chip_mem fqbn with h | h | h | h <;> rw [h] <;> decide

theorem roleFold_isSome_aux (rule : String → Option Role) (r : Role) :
    ∀ (listing : List String) (d : ArtifactDict),
      ((d r).isSome = true ∨ ∃ n ∈ listing, rule n = some r) →
      ((listing.foldl
        (fun d archivo =>
          match rule archivo with
          | some r2 => fun q => if q = r2 then some archivo else d q
          | none => d) d) r).isSome = true := by
  intro listing
  induction listing with
  | nil =>
    intro d h
    rcases h with h | ⟨n, hn, _⟩
    · simpa using h
    · cases hn
  | cons a l ih =>
    intro d h
    simp only [List.foldl_cons]
    apply ih
    rcases h with h | ⟨n, hn, hr⟩
    · left
      cases hra : rule a with
      | none => simpa [hra] using h
      | some r2 =>
        by_cases hrr : r = r2
        · simp [hra, hrr]
        · simpa [hra, hrr] using h
    · rcases List.mem_cons.mp hn with rfl | hn'
      · left
        simp [hr]
      · exact Or.inr ⟨n, hn', hr⟩

theorem roleFold_isSome_of_mem {rule : String → Option Role} {listing : List String}
    {n : String} {r : Role} (hmem : n ∈ listing) (hrule : rule n = some r) :
    ((roleFold rule listing) r).isSome = true :=
  roleFold_isSome_aux rule r listing _ (Or.inr ⟨n, hmem, hrule⟩)

/-- C5, counterexample.  `save_release` copies only a fixed whitelist of
filenames (`main.ino.*`, `<cwd>.ino.*`, `boot_app0.bin`, hex variants).  With
project `myproj`, the fresh classifier assigns `other.ino.bootloader.bin` the
`Bootloader` role, and save succeeds (it copies `myproj.ino.bin`), yet the
loaded release has no `Bootloader` artifact: a role present at save time is
not present after load. -/
theorem c5_counterexample :
    descargar_binarios "myproj.ino" ["other.ino.bootloader.bin", "myproj.ino.bin"]
        Role.bootloader = some "other.ino.bootloader.bin" ∧
    (save_release true ["other.ino.bootloader.bin", "myproj.ino.bin"] ⟨[]⟩
        "myproj" "r1" "esp32:esp32:esp32" "esp32" "d").2 = none ∧
    (load_release_bins
        (save_release true ["other.ino.bootloader.bin", "myproj.ino.bin"] ⟨[]⟩
          "myproj" "r1" "esp32:esp32:esp32" "esp32" "d").1 "r1").map
      (fun p => (p.1 Role.bootloader, p.1 Role.application, p.2))
      = .ok (none, some "myproj.ino.bin", "esp32") := by
  refine ⟨by decide, by decide, by decide⟩

/-- C5, amended.  For a standard project (representative directory name
`myproj`, which avoids the release classifier `bootloader`/`partition`/
`app0` substring traps) whose `./binarios` listing contains the four standard
artifact filenames, saving under a fresh name succeeds, and loading that name
returns the same chip family passed to save and an artifact set containing
the Bootloader, Partitions, BootStub and Application roles.  Roles carried
only by files outside the fixed whitelist of `save_release` are dropped
(see `c5_counterexample`). -/
theorem c5_save_load_roundtrip (bins : List String) (store : RelStore)
    (name fqbn ts : String)
    (hname : ¬ '\n' ∈ name.data) (hts : ¬ '\n' ∈ ts.data) (hfqbn : ¬ '\n' ∈ fqbn.data)
    (h1 : bins.contains "myproj.ino.bootloader.bin" = true)
    (h2 : bins.contains "myproj.ino.partitions.bin" = true)
    (h3 : bins.contains "myproj.ino.bin" = true)
    (h4 : bins.contains "boot_app0.bin" = true)
    (hfresh : store.entries.any (fun e => e.1 == name) = false) :
    ∃ entry : ReleaseEntry,
      save_release true bins store "myproj" name fqbn (familia_chip_de_fqbn fqbn) ts
        = (⟨(name, entry) :: store.entries⟩, none) ∧
      load_release_bins ⟨(name, entry) :: store.entries⟩ name
        = .ok (load_release_dict entry.files, familia_chip_de_fqbn fqbn) ∧
      (load_release_dict entry.files Role.bootloader).isSome = true ∧
      (load_release_dict entry.files Role.partitions).isSome = true ∧
      (load_release_dict entry.files Role.boot_app0).isSome = true ∧
      (load_release_dict entry.files Role.application).isSome = true := by
  have e1 : ("myproj" : String) ++ ".ino.bootloader.bin" = "myproj.ino.bootloader.bin" := by
    decide
  have e2 : ("myproj" : String) ++ ".ino.partitions.bin" = "myproj.ino.partitions.bin" := by
    decide
  have e3 : ("myproj" : String) ++ ".ino.bin" = "myproj.ino.bin" := by decide
  have hmem1 : "myproj.ino.bootloader.bin"
      ∈ (save_whitelist "myproj").filter (fun fn => bins.contains fn) :=
    List.mem_filter.mpr ⟨by decide, h1⟩
  have hmem2 : "myproj.ino.partitions.bin"
      ∈ (save_whitelist "myproj").filter (fun fn => bins.contains fn) :=
    List.mem_filter.mpr ⟨by decide, h2⟩
  have hmem3 : "myproj.ino.bin"
      ∈ (save_whitelist "myproj").filter (fun fn => bins.contains fn) :=
    List.mem_filter.mpr ⟨by decide, h3⟩
  have hmem4 : "boot_app0.bin"
      ∈ (save_whitelist "myproj").filter (fun fn => bins.contains fn) :=
    List.mem_filter.mpr ⟨by decide, h4⟩
  have hne : ((save_whitelist "myproj").filter (fun fn => bins.contains fn)).isEmpty
      = false := by
    cases hc : (save_whitelist "myproj").filter (fun fn => bins.contains fn) with
    | nil =>
      rw [hc] at hmem4
      exact absurd hmem4 (by simp)
    | cons a l => rfl
  refine ⟨⟨(save_whitelist "myproj").filter (fun fn => bins.contains fn),
    some (write_meta_text name ts fqbn (familia_chip_de_fqbn fqbn))⟩, ?_, ?_, ?_, ?_, ?_, ?_⟩
  · unfold save_release
    rw [if_neg (by simp), if_neg (by simp [hfresh]), if_neg (by rw [hne]; simp)]
  · unfold load_release_bins
    rw [List.find?_cons_of_pos _ (by simp)]
    simp only [read_meta]
    rw [read_meta_dict_write name ts fqbn (familia_chip_de_fqbn fqbn) hname hts hfqbn
      (newline_not_mem_familia fqbn)]
    rw [pyStrip_familia]
    rfl
  · exact roleFold_isSome_of_mem hmem1 (by decide)
  · exact roleFold_isSome_of_mem hmem2 (by decide)
  · exact roleFold_isSome_of_mem hmem4 (by decide)
  · exact roleFold_isSome_of_mem hmem3 (by decide)

/-- C5, witness for the amended round trip at a concrete project state. -/
theorem c5_witness :
    (¬ '\n' ∈ ("r1" : String).data) ∧
    (["myproj.ino.bootloader.bin", "myproj.ino.partitions.bin", "myproj.ino.bin",
        "boot_app0.bin"].contains "myproj.ino.bootloader.bin" = true) ∧
    ((RelStore.mk []).entries.any (fun e => e.1 == "r1") = false) ∧
    (∃ entry : ReleaseEntry,
      save_release true
          ["myproj.ino.bootloader.bin", "myproj.ino.partitions.bin", "myproj.ino.bin",
            "boot_app0.bin"] ⟨[]⟩ "myproj" "r1" "esp32:esp32:esp32"
          (familia_chip_de_fqbn "esp32:esp32:esp32") "d"
        = (⟨("r1", entry) :: (RelStore.mk []).entries⟩, none) ∧
      load_release_bins ⟨("r1", entry) :: (RelStore.mk []).entries⟩ "r1"
        = .ok (load_release_dict entry.files, familia_chip_de_fqbn "esp32:esp32:esp32") ∧
      (load_release_dict entry.files Role.bootloader).isSome = true ∧
      (load_release_dict entry.files Role.partitions).isSome = true ∧
      (load_release_dict entry.files Role.boot_app0).isSome = true ∧
      (load_release_dict entry.files Role.application).isSome = true) :=
  ⟨by decide, by decide, by decide,
    c5_save_load_roundtrip
      ["myproj.ino.bootloader.bin", "myproj.ino.partitions.bin", "myproj.ino.bin",
        "boot_app0.bin"] ⟨[]⟩ "r1" "esp32:esp32:esp32" "d"
      (by decide) (by decide) (by decide) (by decide) (by decide) (by decide) (by decide)
      (by decide)⟩

/-! # Claim C9 — exit code 2 is exactly "artifacts ready, no port" -/

/-- Every early exit of the build phase is a `sys.exit(message)`, i.e.
process exit code 1. -/
theorem buildPhase_fst_cases (env : MainEnv) (cwdName : String) (st : MainState) :
    (buildPhase env cwdName st).1 = none ∨ (buildPhase env cwdName st).1 = some 1 := by
  unfold buildPhase
  by_cases h1 : env.inoPresent = false
  · simp [h1]
  · by_cases h2 : needs_compile env.hashActual (st.buildHash.getD "") = true
    · cases hr : env.remoteBuild <;> simp [h1, h2, hr]
    · by_cases h3 : env.family = "avr"
      · by_cases h4 : avr_hex_present cwdName st.binarios = true <;> simp [h1, h2, h3, h4]
      · by_cases h4 : esp32_bins_present cwdName st.binarios = true <;> simp [h1, h2, h3, h4]

/-- C9, confirmed.  The default invocation exits with code 2 exactly when the
build phase completed (artifacts compiled/downloaded/classified, or reused)
and no serial port was found; in that case the post-build state — `./binarios`
and the `.build_hash` fingerprint, already written on the fresh-build path —
is returned untouched.  Every build-phase failure exits 1, and when a port is
present the run exits 0 or 1 (flash failure), never 2 — so 2 is reserved for
the no-port condition. -/
theorem c9_exit2_iff_no_port (env : MainEnv) (cwdName : String) (st : MainState) :
    ((main_model env cwdName st).1 = 2 ↔
      ((buildPhase env cwdName st).1 = none ∧ env.port = none)) ∧
    ((buildPhase env cwdName st).1 = none ∧ env.port = none →
      main_model env cwdName st = (2, (buildPhase env cwdName st).2)) ∧
    (∀ c, (buildPhase env cwdName st).1 = some c → c = 1) ∧
    (env.inoPresent = true → needs_compile env.hashActual (st.buildHash.getD "") = true →
      ∀ names, env.remoteBuild = some names →
        (buildPhase env cwdName st).2 = ⟨names, some env.hashActual⟩) := by
  refine ⟨?_, ?_, ?_, ?_⟩
  · rcases hb : buildPhase env cwdName st with ⟨oc, st2⟩
    cases oc with
    | some c =>
      have hc : c = 1 := by
        rcases buildPhase_fst_cases env cwdName st with h | h <;> rw [hb] at h
        · simp at h
        · simpa using h
      subst hc
      simp [main_model, hb]
    | none =>
      cases hp : env.port with
      | none => simp [main_model, hb, flashPhase, hp]
      | some p =>
        by_cases hf : env.flashOk = true <;> simp [main_model, hb, flashPhase, hp, hf]
  · rintro ⟨hnone, hport⟩
    rcases hb : buildPhase env cwdName st with ⟨oc, st2⟩
    rw [hb] at hnone
    simp only at hnone
    subst hnone
    simp [main_model, hb, flashPhase, hport]
  · intro c hc
    rcases buildPhase_fst_cases env cwdName st with h | h <;> rw [hc] at h
    · simp at h
    · simpa using h
  · intro hino hneeds names hr
    unfold buildPhase
    rw [if_neg (by simp [hino]), if_pos hneeds, hr]

/-- C9, witness: fresh build succeeded, no port → exit 2 with the downloaded
artifacts and the new fingerprint on disk. -/
theorem c9_witness :
    (buildPhase ⟨true, "h1", "esp32", some ["myproj.ino.bin"], none, true⟩ "myproj"
        ⟨[], none⟩).1 = none ∧
    (MainEnv.port ⟨true, "h1", "esp32", some ["myproj.ino.bin"], none, true⟩) = none ∧
    main_model ⟨true, "h1", "esp32", some ["myproj.ino.bin"], none, true⟩ "myproj" ⟨[], none⟩
      = (2, (buildPhase ⟨true, "h1", "esp32", some ["myproj.ino.bin"], none, true⟩ "myproj"
          ⟨[], none⟩).2) :=
  ⟨by decide, rfl,
    (c9_exit2_iff_no_port ⟨true, "h1", "esp32", some ["myproj.ino.bin"], none, true⟩ "myproj"
      ⟨[], none⟩).2.1 ⟨by decide, rfl⟩⟩

/-! # Claim C8 — determinism and content-sensitivity of the build fingerprint -/

theorem getD_set_self : ∀ (l : List Nat) (i b : Nat), i < l.length →
    (l.set i b).getD i 0 = b := by
  intro l
  induction l with
  | nil =>
    intro i b h
    simp at h
  | cons x xs ih =>
    intro i b h
    cases i with
    | zero => rfl
    | succ j =>
      simp only [List.set, List.getD_cons_succ]
      exact ih j b (by simpa using h)

/-- C8, confirmed (SHA-256 at the boundary).  `hash_proyecto` is modelled as
an arbitrary fixed digest of the exact byte stream the source feeds to
SHA-256.  (1) The stream — hence the digest — depends only on the set of
paths and their contents, not on the enumeration order.  (2) Changing one
byte of a tracked file changes the stream, hence the digest for every
injective digest function (for real SHA-256 this is the standard
collision-resistance assumption; the stream inequality is what the source
code itself guarantees). -/
theorem c8_fingerprint_deterministic {D : Type} (digest : List Nat → D)
    (contents : String → List Nat) (enum1 enum2 : List String) (path : String)
    (i b : Nat) :
    (List.Perm enum1 enum2 →
      hash_proyecto digest contents enum1 = hash_proyecto digest contents enum2) ∧
    (enum1.Nodup → path ∈ enum1 → tracked path = true →
      i < (contents path).length → b ≠ (contents path).getD i 0 →
      Function.Injective digest →
      hash_proyecto digest
          (fun q => if q = path then (contents path).set i b else contents q) enum1
        ≠ hash_proyecto digest contents enum1) := by
  constructor
  · intro hperm
    unfold hash_proyecto hashStream
    have hs : sortPaths enum1 = sortPaths enum2 := by
      unfold sortPaths
      exact List.eq_of_perm_of_sorted
        (((List.perm_insertionSort pathLe enum1).trans hperm).trans
          (List.perm_insertionSort pathLe enum2).symm)
        (List.sorted_insertionSort pathLe enum1) (List.sorted_insertionSort pathLe enum2)
    rw [hs]
  · intro hnd hmem htr hi hb hinj heq
    have hstream := hinj heq
    unfold hashStream sortPaths at hstream
    obtain ⟨l1, l2, hL⟩ :=
      List.append_of_mem (List.mem_filter.mpr
        ⟨(List.perm_insertionSort pathLe enum1).mem_iff.mpr hmem, htr⟩)
    have hndL : ((enum1.insertionSort pathLe).filter tracked).Nodup :=
      (((List.perm_insertionSort pathLe enum1).nodup_iff).mpr hnd).filter _
    rw [hL] at hstream hndL
    simp only [List.nodup_append, List.nodup_cons] at hndL
    have hp2 : path ∉ l2 := hndL.2.1.1
    have hp1 : path ∉ l1 := fun hin => hndL.2.2 hin (List.mem_cons_self _ _)
    have hmapl1 : l1.map (fun q => if q = path then (contents path).set i b else contents q)
        = l1.map contents :=
      List.map_congr_left (fun x hx => by
        have hxp : ¬ x = path := by
          intro hxe
          exact hp1 (hxe ▸ hx)
        rw [if_neg hxp])
    have hmapl2 : l2.map (fun q => if q = path then (contents path).set i b else contents q)
        = l2.map contents :=
      List.map_congr_left (fun x hx => by
        have hxp : ¬ x = path := by
          intro hxe
          exact hp2 (hxe ▸ hx)
        rw [if_neg hxp])
    rw [List.map_append, List.map_cons, List.map_append, List.map_cons, hmapl1, hmapl2,
      List.flatten_append, List.flatten_cons, List.flatten_append, List.flatten_cons,
      if_pos rfl] at hstream
    have h2 := List.append_cancel_left hstream
    have h3 := List.append_inj_left h2 (by simp)
    have h4 : ((contents path).set i b).getD i 0 = (contents path).getD i 0 := by rw [h3]
    rw [getD_set_self _ _ _ hi] at h4
    exact hb h4

/-- C8, witness: two enumeration orders of a two-file project, and a one-byte
change in the sketch, with the identity function as (injective) digest. -/
theorem c8_witness :
    List.Perm ["b.txt", "a.ino"] ["a.ino", "b.txt"] ∧
    ["b.txt", "a.ino"].Nodup ∧
    "a.ino" ∈ (["b.txt", "a.ino"] : List String) ∧
    tracked "a.ino" = true ∧
    hash_proyecto (fun s => s)
        (fun p => if p = "a.ino" then [1, 2] else if p = "b.txt" then [3] else [])
        ["b.txt", "a.ino"]
      = hash_proyecto (fun s => s)
        (fun p => if p = "a.ino" then [1, 2] else if p = "b.txt" then [3] else [])
        ["a.ino", "b.txt"] ∧
    hash_proyecto (fun s => s)
        (fun q => if q = "a.ino" then
            ((fun p => if p = "a.ino" then [1, 2] else if p = "b.txt" then [3] else []) "a.ino").set 0 9
          else (fun p => if p = "a.ino" then [1, 2] else if p = "b.txt" then [3] else []) q)
        ["b.txt", "a.ino"]
      ≠ hash_proyecto (fun s => s)
        (fun p => if p = "a.ino" then [1, 2] else if p = "b.txt" then [3] else [])
        ["b.txt", "a.ino"] :=
  ⟨by decide, by decide, by decide, by decide,
    (c8_fingerprint_deterministic (fun s => s)
      (fun p => if p = "a.ino" then [1, 2] else if p = "b.txt" then [3] else [])
      ["b.txt", "a.ino"] ["a.ino", "b.txt"] "a.ino" 0 9).1 (by decide),
    (c8_fingerprint_deterministic (fun s => s)
      (fun p => if p = "a.ino" then [1, 2] else if p = "b.txt" then [3] else [])
      ["b.txt", "a.ino"] ["a.ino", "b.txt"] "a.ino" 0 9).2 (by decide) (by decide)
      (by decide) (by decide) (by decide) (fun _ _ h => h)⟩

/-! # Claim C10 — the fingerprint reads only file contents, not names -/

/-- C10, confirmed.  `hash_proyecto` hashes only `path.read_bytes()` in
sorted-path order (the paths themselves are never fed to the digest): any
renaming that keeps the tracked status of each file and the relative sort
order, with contents unchanged, yields the identical byte stream and hence
the identical fingerprint, and the staleness check then skips recompilation. -/
theorem c10_rename_invariant (digest : List Nat → String)
    (contents contents2 : String → List Nat) (enum : List String) (ren : String → String)
    (htr : ∀ p ∈ enum, tracked (ren p) = tracked p)
    (hmono : ∀ p ∈ enum, ∀ q ∈ enum, (pathLe p q ↔ pathLe (ren p) (ren q)))
    (hcont : ∀ p ∈ enum, contents2 (ren p) = contents p) :
    hash_proyecto digest contents2 (enum.map ren) = hash_proyecto digest contents enum ∧
    needs_compile (hash_proyecto digest contents2 (enum.map ren))
      (hash_proyecto digest contents enum) = false := by
  have hsort : (enum.map ren).insertionSort pathLe = (enum.insertionSort pathLe).map ren :=
    (List.map_insertionSort pathLe pathLe ren enum hmono).symm
  have hmain : hash_proyecto digest contents2 (enum.map ren)
      = hash_proyecto digest contents enum := by
    unfold hash_proyecto hashStream sortPaths
    rw [hsort]
    have hfilter : ((enum.insertionSort pathLe).map ren).filter tracked
        = ((enum.insertionSort pathLe).filter (fun p => tracked (ren p))).map ren := by
      rw [List.filter_map]
      rfl
    rw [hfilter]
    have hfilter2 : (enum.insertionSort pathLe).filter (fun p => tracked (ren p))
        = (enum.insertionSort pathLe).filter tracked :=
      List.filter_congr (fun x hx => htr x ((List.perm_insertionSort pathLe enum).subset hx))
    rw [hfilter2]
    have hmap : (((enum.insertionSort pathLe).filter tracked).map ren).map contents2
        = ((enum.insertionSort pathLe).filter tracked).map contents := by
      rw [List.map_map]
      exact List.map_congr_left (fun x hx => hcont x
        ((List.perm_insertionSort pathLe enum).subset (List.mem_of_mem_filter hx)))
    rw [hmap]
  exact ⟨hmain, by simp [needs_compile, hmain]⟩

/-- C10, witness: renaming the sketch (`a.ino` → `a2.ino`) preserving sort
order and contents leaves the fingerprint unchanged and skips the rebuild. -/
theorem c10_witness :
    (∀ p ∈ (["a.ino", "b.txt"] : List String),
      tracked ((fun s => if s = "a.ino" then "a2.ino" else s) p) = tracked p) ∧
    (∀ p ∈ (["a.ino", "b.txt"] : List String), ∀ q ∈ (["a.ino", "b.txt"] : List String),
      (pathLe p q ↔ pathLe ((fun s => if s = "a.ino" then "a2.ino" else s) p)
        ((fun s => if s = "a.ino" then "a2.ino" else s) q))) ∧
    hash_proyecto (fun s => s.length.repr)
        (fun p => if p = "a2.ino" then [1, 2] else if p = "b.txt" then [3] else [])
        ((["a.ino", "b.txt"] : List String).map (fun s => if s = "a.ino" then "a2.ino" else s))
      = hash_proyecto (fun s => s.length.repr)
        (fun p => if p = "a.ino" then [1, 2] else if p = "b.txt" then [3] else [])
        ["a.ino", "b.txt"] ∧
    needs_compile
        (hash_proyecto (fun s => s.length.repr)
          (fun p => if p = "a2.ino" then [1, 2] else if p = "b.txt" then [3] else [])
          ((["a.ino", "b.txt"] : List String).map
            (fun s => if s = "a.ino" then "a2.ino" else s)))
        (hash_proyecto (fun s => s.length.repr)
          (fun p => if p = "a.ino" then [1, 2] else if p = "b.txt" then [3] else [])
          ["a.ino", "b.txt"]) = false :=
  ⟨by decide, by decide,
    (c10_rename_invariant (fun s => s.length.repr)
      (fun p => if p = "a.ino" then [1, 2] else if p = "b.txt" then [3] else [])
      (fun p => if p = "a2.ino" then [1, 2] else if p = "b.txt" then [3] else [])
      ["a.ino", "b.txt"] (fun s => if s = "a.ino" then "a2.ino" else s)
      (by decide) (by decide) (by decide)).1,
    (c10_rename_invariant (fun s => s.length.repr)
      (fun p => if p = "a.ino" then [1, 2] else if p = "b.txt" then [3] else [])
      (fun p => if p = "a2.ino" then [1, 2] else if p = "b.txt" then [3] else [])
      ["a.ino", "b.txt"] (fun s => if s = "a.ino" then "a2.ino" else s)
      (by decide) (by decide) (by decide)).2⟩

end Arcompile
